import Mathlib

/-!
Shallow embedding of `src/auth.rs` of the megaphone repository:
bearer-token authentication and role-based authorization.

Modelling decisions:
* Rust `HashMap` values are embedded as association lists; `HashMap::get`
  becomes `List.lookup` and `HashMap::insert` becomes consing at the front
  (every insert in the source happens only after a lookup confirmed the key
  is absent, so cons and replace coincide).
* rocket's `config::Value` is embedded as an inductive with the two
  constructors the source inspects (`String`, `Array`) plus a catch-all
  `other` for every other variant.
* Errors built with `format_err!` (the `Result` error path, i.e. config
  errors) become `Except String`; `HandlerErrorKind` keeps its variants.
-/

set_option autoImplicit false

deriving instance DecidableEq for Except

namespace Megaphone

abbrev AuthToken := String
abbrev UserId := String

/-- Grouping/role of authorization (`enum Group` in `src/auth.rs`). -/
inductive Group where
  | Broadcaster
  | Reader
deriving DecidableEq, Repr

/-- Entry name in rocket Config where tokens are loaded from. -/
def Group.config_name : Group → String
  | Group.Broadcaster => "broadcaster_auth"
  | Group.Reader => "reader_auth"

/-- rocket `config::Value`, restricted to the structure `auth.rs` inspects:
strings, arrays, and `other` standing for every non-string non-array variant. -/
inductive Value where
  | str : String → Value
  | arr : List Value → Value
  | other : Value
deriving Repr

/-- `Value::as_str`. -/
def Value.as_str : Value → Option String
  | Value.str s => some s
  | _ => none

/-- `Value::as_array`. -/
def Value.as_array : Value → Option (List Value)
  | Value.arr vs => some vs
  | _ => none

/-- A rocket `Config`, exposing the two tables `auth.rs` reads.  A table is an
association list from `UserId` to `Value`; `none` models a table that is
absent or not a table (both make `get_table` fail in rocket). -/
structure Config where
  broadcaster_auth : Option (List (UserId × Value))
  reader_auth : Option (List (UserId × Value))

/-- rocket `Config::get_table`, for the two names the source uses. -/
def Config.get_table (c : Config) (name : String) : Option (List (UserId × Value)) :=
  if name = "broadcaster_auth" then c.broadcaster_auth
  else if name = "reader_auth" then c.reader_auth
  else none

/-- The token registry (`struct BearerTokenAuthenticator`). -/
structure BearerTokenAuthenticator where
  users : List (AuthToken × UserId)
  groups : List (UserId × Group)
deriving DecidableEq, Repr

/-- `BearerTokenAuthenticator::load_tokens`. -/
def BearerTokenAuthenticator.load_tokens (a : BearerTokenAuthenticator) (user_id : UserId)
    (group : Group) (tokens : List Value) : Except String BearerTokenAuthenticator :=
  match tokens with
  | [] => Except.ok a
  | element :: rest =>
    match element.as_str with
    | none => Except.error ("Invalid " ++ group.config_name ++ " token for: " ++ user_id)
    | some token =>
      match a.users.lookup token with
      | some dupe =>
        Except.error ("Invalid " ++ group.config_name ++ " token for: " ++ user_id ++
          " dupe in: " ++ dupe ++ " (" ++ token ++ ")")
      | none =>
        BearerTokenAuthenticator.load_tokens
          { a with users := (token, user_id) :: a.users } user_id group rest

/-- The body of the `for (user_id, tokens_val) in auth_config` loop of
`BearerTokenAuthenticator::load_auth_from_config`, iterating over the
table's entries. -/
def BearerTokenAuthenticator.load_entries (a : BearerTokenAuthenticator) (group : Group)
    (entries : List (UserId × Value)) : Except String BearerTokenAuthenticator :=
  match entries with
  | [] => Except.ok a
  | (user_id, tokens_val) :: rest =>
    match a.groups.lookup user_id with
    | some dupe =>
      Except.error ("Invalid " ++ group.config_name ++ " user: " ++ user_id ++
        " dupe user in: " ++ dupe.config_name)
    | none =>
      let a1 : BearerTokenAuthenticator := { a with groups := (user_id, group) :: a.groups }
      match tokens_val.as_array with
      | none =>
        Except.error ("Invalid " ++ group.config_name ++ " token array for: " ++ user_id)
      | some tokens =>
        match a1.load_tokens user_id group tokens with
        | Except.error e => Except.error e
        | Except.ok a2 => BearerTokenAuthenticator.load_entries a2 group rest

/-- `BearerTokenAuthenticator::load_auth_from_config`. -/
def BearerTokenAuthenticator.load_auth_from_config (a : BearerTokenAuthenticator)
    (group : Group) (config : Config) : Except String BearerTokenAuthenticator :=
  match config.get_table group.config_name with
  | none => Except.error ("Undefined or invalid ROCKET_" ++ group.config_name)
  | some table => a.load_entries group table

/-- `BearerTokenAuthenticator::from_config`. -/
def BearerTokenAuthenticator.from_config (config : Config) :
    Except String BearerTokenAuthenticator :=
  match BearerTokenAuthenticator.load_auth_from_config ⟨[], []⟩ Group.Broadcaster config with
  | Except.error e => Except.error e
  | Except.ok a1 => a1.load_auth_from_config Group.Reader config

/-- The `HandlerErrorKind` variants referenced by `src/auth.rs`
(`RocketError`'s `rocket::Error` payload is abstracted away). -/
inductive HandlerErrorKind where
  | MissingAuth
  | InvalidAuth
  | Unauthorized
  | InternalError
  | RocketError
deriving DecidableEq, Repr

/-- Rust `str::to_lowercase`, restricted to ASCII case mapping (the only
characters the source compares case-insensitively are ASCII). -/
def to_lowercase (s : String) : String :=
  String.mk (s.toList.map Char.toLower)

/-- rocket `HeaderMap`: a list of (name, value) pairs. -/
abbrev HeaderMap := List (String × String)

/-- rocket `HeaderMap::get_one`: first value stored under the (case-insensitive)
header name. -/
def HeaderMap.get_one (headers : HeaderMap) (name : String) : Option String :=
  (headers.find? fun p => to_lowercase p.1 == to_lowercase name).map Prod.snd

/-- Split a character list at the first occurrence of `' '`:
`none` when there is no space, otherwise the parts before and after it. -/
def splitFirstSpace : List Char → Option (List Char × List Char)
  | [] => none
  | c :: rest =>
    if c = ' ' then some ([], rest)
    else (splitFirstSpace rest).map fun p => (c :: p.1, p.2)

/-- Rust `str::splitn(2, ' ')`: one part when the string has no space,
otherwise the part before the first space and everything after it. -/
def splitn2 (s : String) : List String :=
  match splitFirstSpace s.toList with
  | none => [s]
  | some (p, q) => [String.mk p, String.mk q]

/-- `BearerTokenAuthenticator::authenticated_user` (the method on the registry). -/
def BearerTokenAuthenticator.authenticated_user (a : BearerTokenAuthenticator)
    (headers : HeaderMap) : Except HandlerErrorKind (UserId × Group) :=
  match HeaderMap.get_one headers "Authorization" with
  | none => Except.error HandlerErrorKind.MissingAuth
  | some auth_header =>
    match splitn2 auth_header with
    | [scheme, token] =>
      if to_lowercase scheme ≠ "bearer" then Except.error HandlerErrorKind.InvalidAuth
      else
        match a.users.lookup token with
        | none => Except.error HandlerErrorKind.InvalidAuth
        | some user_id =>
          match a.groups.lookup user_id with
          | none => Except.error HandlerErrorKind.InternalError
          | some group => Except.ok (user_id, group)
    | _ => Except.error HandlerErrorKind.InvalidAuth

/-- Modelled from the spec: `db::models::Broadcaster` (not under `src/`) — the
principal wrapping the broadcaster's own UserId, built with `Broadcaster::new`. -/
structure Broadcaster where
  id : UserId
deriving DecidableEq, Repr

def Broadcaster.new (id : UserId) : Broadcaster := ⟨id⟩

/-- Modelled from the spec: `db::models::Reader` (not under `src/`) — the
principal wrapping the reader's UserId, built with `Reader::new`. -/
structure Reader where
  id : UserId
deriving DecidableEq, Repr

def Reader.new (id : UserId) : Reader := ⟨id⟩

/-- A rocket `Request`, restricted to what `auth.rs` consumes: the managed
`State<BearerTokenAuthenticator>` guard (`none` models guard failure), the
headers, and `get_param::<String>(0)` (`none` models a failed parameter). -/
structure Request where
  authenticator : Option BearerTokenAuthenticator
  headers : HeaderMap
  param0 : Option String

/-- The free function `authenticated_user(request)`. -/
def authenticated_user (request : Request) : Except HandlerErrorKind (UserId × Group) :=
  match request.authenticator with
  | none => Except.error HandlerErrorKind.InternalError
  | some a => a.authenticated_user request.headers

/-- `authorized_broadcaster`. -/
def authorized_broadcaster (request : Request) : Except HandlerErrorKind Broadcaster :=
  match authenticated_user request with
  | Except.error e => Except.error e
  | Except.ok (id, group) =>
    match request.param0 with
    | none => Except.error HandlerErrorKind.RocketError
    | some for_broadcast_id =>
      if group = Group.Broadcaster ∧ id = for_broadcast_id then Except.ok (Broadcaster.new id)
      else Except.error HandlerErrorKind.Unauthorized

/-- `authorized_reader`. -/
def authorized_reader (request : Request) : Except HandlerErrorKind Reader :=
  match authenticated_user request with
  | Except.error e => Except.error e
  | Except.ok (id, group) =>
    if group = Group.Reader then Except.ok (Reader.new id)
    else Except.error HandlerErrorKind.Unauthorized

/-! ### Derived views of a configuration table, used to state the claims -/

/-- Collect the strings of a list of values; `none` as soon as one is not a
string. -/
def asStrings : List Value → Option (List String)
  | [] => some []
  | v :: vs =>
    match v.as_str with
    | none => none
    | some sv => (asStrings vs).map fun rest => sv :: rest

/-- The list of strings in a `Value`, when it is an array made of strings only. -/
def valueStrings : Value → Option (List String)
  | Value.arr vs => asStrings vs
  | _ => none

/-- Whether a `Value` is an array whose elements are all strings. -/
def Value.wfTokens : Value → Bool
  | Value.arr vs => vs.all fun v => (Value.as_str v).isSome
  | _ => false

/-- The string tokens occurring in a `Value` (ignoring non-string elements). -/
def entryTokens : Value → List String
  | Value.arr vs => vs.filterMap Value.as_str
  | _ => []

/-- All tokens of a table, in iteration order. -/
def tableTokens (table : List (UserId × Value)) : List String :=
  table.flatMap fun e => entryTokens e.2

/-- All (token, user) pairs of a table, in iteration order. -/
def tablePairs (table : List (UserId × Value)) : List (AuthToken × UserId) :=
  table.flatMap fun e => (entryTokens e.2).map fun t => (t, e.1)

/-- All entries of both tables of a configuration (empty slice for an
absent table). -/
def configEntries (cfg : Config) : List (UserId × Value) :=
  (cfg.get_table "broadcaster_auth").getD [] ++ (cfg.get_table "reader_auth").getD []

/-! ### Concrete configurations and requests (spec §8 scenario and variants) -/

/-- The configuration of the source's `test_basic` (also the spec §8 scenario,
extended with broadcaster `foo`). -/
def cfgEx : Config :=
  { broadcaster_auth := some [("foo", Value.arr [Value.str "bar"]),
                              ("baz", Value.arr [Value.str "quux"])],
    reader_auth := some [("otto", Value.arr [Value.str "push"])] }

/-- The registry `from_config` builds from `cfgEx`. -/
def regEx : BearerTokenAuthenticator :=
  { users := [("push", "otto"), ("quux", "baz"), ("bar", "foo")],
    groups := [("otto", Group.Reader), ("baz", Group.Broadcaster),
               ("foo", Group.Broadcaster)] }

/-- A request of broadcaster `baz` (token `quux`) for namespace `baz`. -/
def reqEx : Request :=
  { authenticator := some regEx,
    headers := [("Authorization", "Bearer quux")],
    param0 := some "baz" }

/-- A request of reader `otto` (token `push`); the namespace parameter is
irrelevant for readers. -/
def reqReader : Request :=
  { authenticator := some regEx,
    headers := [("Authorization", "Bearer push")],
    param0 := some "foo" }

/-- A request of broadcaster `baz` on a route without a usable first path
parameter. -/
def reqNoParam : Request :=
  { authenticator := some regEx,
    headers := [("Authorization", "Bearer quux")],
    param0 := none }

/-- The registry `from_config` builds from `cfgEmpty`. -/
def regEmpty : BearerTokenAuthenticator :=
  { users := [("push", "otto"), ("quux", "baz")],
    groups := [("otto", Group.Reader), ("nobody", Group.Broadcaster),
               ("baz", Group.Broadcaster)] }

/-- The configuration of the source's `test_dupe_token`: token `bar` under two
broadcasters. -/
def cfgDupeToken : Config :=
  { broadcaster_auth := some [("foo", Value.arr [Value.str "bar"]),
                              ("baz", Value.arr [Value.str "bar"])],
    reader_auth := some [] }

/-- The configuration of the source's `test_dupe_user`: `foo` in both tables. -/
def cfgDupeUser : Config :=
  { broadcaster_auth := some [("foo", Value.arr [Value.str "bar"])],
    reader_auth := some [("foo", Value.arr [Value.str "baz"])] }

/-- A configuration in which user `nobody` has an empty token array. -/
def cfgEmpty : Config :=
  { broadcaster_auth := some [("baz", Value.arr [Value.str "quux"]),
                              ("nobody", Value.arr [])],
    reader_auth := some [("otto", Value.arr [Value.str "push"])] }

/-! ### Association-list lookup helpers -/

theorem lookup_eq_none_keys {α β : Type} [BEq α] [LawfulBEq α] (l : List (α × β)) (k : α) :
    l.lookup k = none ↔ k ∉ l.map Prod.fst := by
  rw [List.lookup_eq_none_iff]
  simp only [bne_iff_ne, ne_eq, List.mem_map, not_exists, not_and]
  constructor
  · intro h p hp hk
    exact h p hp hk.symm
  · intro h p hp hk
    exact h p hp hk.symm

theorem mem_of_lookup_eq_some {α β : Type} [BEq α] [LawfulBEq α] {l : List (α × β)} {k : α}
    {v : β} (h : l.lookup k = some v) : (k, v) ∈ l := by
  rw [List.lookup_eq_some_iff] at h
  obtain ⟨l₁, l₂, rfl, -⟩ := h
  simp

theorem lookup_eq_some_of_mem_nodup {α β : Type} [BEq α] [LawfulBEq α] {l : List (α × β)}
    {k : α} {v : β} (hnd : (l.map Prod.fst).Nodup) (hm : (k, v) ∈ l) : l.lookup k = some v := by
  induction l with
  | nil => simp at hm
  | cons p t ih =>
    obtain ⟨k₁, v₁⟩ := p
    simp only [List.map_cons, List.nodup_cons, List.mem_map] at hnd
    rcases List.mem_cons.mp hm with h | h
    · cases h
      simp [List.lookup_cons]
    · have hne : k ≠ k₁ := by
        rintro rfl
        exact hnd.1 ⟨(k, v), h, rfl⟩
      rw [List.lookup_cons]
      have hbe : (k == k₁) = false := beq_false_of_ne hne
      rw [hbe]
      exact ih hnd.2 h

theorem lookup_cons_ne_none {α β : Type} [BEq α] [LawfulBEq α] {l : List (α × β)} {k k₁ : α}
    {v₁ : β} (h : List.lookup k ((k₁, v₁) :: l) = none) : l.lookup k = none := by
  rw [List.lookup_cons] at h
  rcases hbe : k == k₁ with - | -
  · rw [hbe] at h
    exact h
  · rw [hbe] at h
    exact absurd h (by simp)

theorem nodup_rev_append {α : Type} {l₁ l₂ : List α} (h : (l₁ ++ l₂).Nodup) :
    (l₂.reverse ++ l₁.reverse).Nodup := by
  rw [List.nodup_append] at h ⊢
  refine ⟨List.nodup_reverse.mpr h.2.1, List.nodup_reverse.mpr h.1, ?_⟩
  intro a ha hb
  exact h.2.2 (List.mem_reverse.mp hb) (List.mem_reverse.mp ha)

theorem nodup_flatMap_pairwise {α β : Type} {l : List α} {f : α → List β}
    (h : (l.flatMap f).Nodup) {a b : α} (ha : a ∈ l) (hb : b ∈ l) (hab : a ≠ b)
    {x : β} (hxa : x ∈ f a) (hxb : x ∈ f b) : False := by
  induction l with
  | nil => cases ha
  | cons c cs ih =>
    rw [List.flatMap_cons, List.nodup_append] at h
    rcases List.mem_cons.mp ha with hac | hat
    · rcases List.mem_cons.mp hb with hbc | hbt
      · exact hab (hac.trans hbc.symm)
      · subst hac
        exact h.2.2 hxa (List.mem_flatMap.mpr ⟨b, hbt, hxb⟩)
    · rcases List.mem_cons.mp hb with hbc | hbt
      · subst hbc
        exact h.2.2 hxb (List.mem_flatMap.mpr ⟨a, hat, hxa⟩)
      · exact ih h.2.1 hat hbt

theorem asStrings_isSome (l : List Value) :
    (asStrings l).isSome ↔ ∀ v ∈ l, (Value.as_str v).isSome := by
  induction l with
  | nil => simp [asStrings]
  | cons a t ih =>
    rw [asStrings]
    rcases hfa : a.as_str with - | b
    · simp [hfa]
    · rcases hmt : asStrings t with - | bs
      · rw [hmt] at ih
        simp only [Option.isSome_none, Bool.false_eq_true, false_iff] at ih
        simp [hfa, ih]
      · rw [hmt] at ih
        simp only [Option.isSome_some, true_iff] at ih
        simp [hfa, ih]
        exact ih

theorem filterMap_eq_of_asStrings {l : List Value} {res : List String}
    (h : asStrings l = some res) : l.filterMap Value.as_str = res := by
  induction l generalizing res with
  | nil =>
    rw [asStrings] at h
    cases h
    simp
  | cons a t ih =>
    rw [asStrings] at h
    rcases hfa : a.as_str with - | b
    · rw [hfa] at h
      cases h
    · rw [hfa] at h
      rcases hmt : asStrings t with - | bs
      · rw [hmt] at h
        cases h
      · rw [hmt] at h
        cases h
        rw [List.filterMap_cons, hfa, ih hmt]

/-! ### Characterization of the registry builder -/

theorem load_tokens_ok_inv {vs : List Value} {u : UserId} {g : Group}
    {a a' : BearerTokenAuthenticator}
    (h : a.load_tokens u g vs = Except.ok a') :
    (∀ v ∈ vs, (Value.as_str v).isSome) ∧
    (vs.filterMap Value.as_str).Nodup ∧
    (∀ t ∈ vs.filterMap Value.as_str, a.users.lookup t = none) ∧
    a' = ⟨((vs.filterMap Value.as_str).map fun t => (t, u)).reverse ++ a.users, a.groups⟩ := by
  induction vs generalizing a with
  | nil =>
    rw [BearerTokenAuthenticator.load_tokens] at h
    cases h
    simp
  | cons v rest ih =>
    rw [BearerTokenAuthenticator.load_tokens] at h
    rcases hstr : v.as_str with - | token
    · rw [hstr] at h
      dsimp only at h
      cases h
    · rw [hstr] at h
      dsimp only at h
      rcases hlk : a.users.lookup token with - | dupe
      · rw [hlk] at h
        dsimp only at h
        obtain ⟨h1, h2, h3, h4⟩ := ih h
        refine ⟨?_, ?_, ?_, ?_⟩
        · intro w hw
          rcases List.mem_cons.mp hw with rfl | hw
          · simp [hstr]
          · exact h1 w hw
        · rw [List.filterMap_cons, hstr]
          refine List.nodup_cons.mpr ⟨?_, h2⟩
          intro hmem
          have hnone := h3 token hmem
          simp [List.lookup_cons] at hnone
        · intro t ht
          rw [List.filterMap_cons, hstr] at ht
          rcases List.mem_cons.mp ht with rfl | ht
          · exact hlk
          · exact lookup_cons_ne_none (h3 t ht)
        · rw [h4]
          simp [List.filterMap_cons, hstr, List.append_assoc]
      · rw [hlk] at h
        dsimp only at h
        cases h

theorem load_tokens_ok_of {vs : List Value} {u : UserId} {g : Group}
    {a : BearerTokenAuthenticator}
    (hstr : ∀ v ∈ vs, (Value.as_str v).isSome)
    (hnd : (vs.filterMap Value.as_str).Nodup)
    (hfresh : ∀ t ∈ vs.filterMap Value.as_str, a.users.lookup t = none) :
    a.load_tokens u g vs =
      Except.ok ⟨((vs.filterMap Value.as_str).map fun t => (t, u)).reverse ++ a.users,
        a.groups⟩ := by
  induction vs generalizing a with
  | nil =>
    rw [BearerTokenAuthenticator.load_tokens]
    simp
  | cons v rest ih =>
    rw [BearerTokenAuthenticator.load_tokens]
    have hv := hstr v (List.mem_cons_self v rest)
    rcases hs : v.as_str with - | token
    · rw [hs] at hv
      simp at hv
    · dsimp only
      rw [List.filterMap_cons, hs] at hnd hfresh
      have htok : a.users.lookup token = none :=
        hfresh token (List.mem_cons_self token _)
      rw [htok]
      have hrest :
          BearerTokenAuthenticator.load_tokens ⟨(token, u) :: a.users, a.groups⟩ u g rest =
            Except.ok ⟨((rest.filterMap Value.as_str).map fun t => (t, u)).reverse ++
              ((token, u) :: a.users), a.groups⟩ := by
        refine ih (fun w hw => hstr w (List.mem_cons_of_mem v hw)) (List.nodup_cons.mp hnd).2
          (fun t ht => ?_)
        rw [List.lookup_cons]
        have hne : t ≠ token := by
          rintro rfl
          exact (List.nodup_cons.mp hnd).1 ht
        rw [beq_false_of_ne hne]
        exact hfresh t (List.mem_cons_of_mem token ht)
      rw [hrest, List.filterMap_cons, hs]
      simp [List.append_assoc]

theorem lookup_append_none_right {α β : Type} [BEq α] [LawfulBEq α] {l₁ l₂ : List (α × β)}
    {k : α} (h : List.lookup k (l₁ ++ l₂) = none) : l₂.lookup k = none := by
  rw [List.lookup_append] at h
  rcases hl : l₁.lookup k with - | v
  · rw [hl, Option.none_or] at h
    exact h
  · rw [hl] at h
    exact absurd h (by simp [Option.or])

theorem as_array_eq_some {v : Value} {vs : List Value} (h : v.as_array = some vs) :
    v = Value.arr vs := by
  cases v with
  | str s => simp [Value.as_array] at h
  | arr l =>
    simp only [Value.as_array, Option.some.injEq] at h
    rw [h]
  | other => simp [Value.as_array] at h

theorem load_entries_ok_inv {es : List (UserId × Value)} {g : Group}
    {a a' : BearerTokenAuthenticator}
    (h : a.load_entries g es = Except.ok a') :
    (∀ e ∈ es, e.2.wfTokens) ∧
    (es.map Prod.fst).Nodup ∧
    (∀ u ∈ es.map Prod.fst, a.groups.lookup u = none) ∧
    (tableTokens es).Nodup ∧
    (∀ t ∈ tableTokens es, a.users.lookup t = none) ∧
    a' = ⟨(tablePairs es).reverse ++ a.users,
          (es.map fun e => (e.1, g)).reverse ++ a.groups⟩ := by
  induction es generalizing a with
  | nil =>
    rw [BearerTokenAuthenticator.load_entries] at h
    cases h
    simp [tableTokens, tablePairs]
  | cons e rest ih =>
    obtain ⟨u, val⟩ := e
    rw [BearerTokenAuthenticator.load_entries] at h
    rcases hgl : a.groups.lookup u with - | dupe
    · rw [hgl] at h
      dsimp only at h
      rcases har : val.as_array with - | vs
      · rw [har] at h
        dsimp only at h
        cases h
      · rw [har] at h
        dsimp only at h
        obtain rfl := as_array_eq_some har
        rcases hlt : BearerTokenAuthenticator.load_tokens
            ⟨a.users, (u, g) :: a.groups⟩ u g vs with e1 | a2
        · rw [hlt] at h
          cases h
        · rw [hlt] at h
          dsimp only at h
          obtain ⟨ht1, ht2, ht3, ha2⟩ := load_tokens_ok_inv hlt
          subst ha2
          obtain ⟨r1, r2, r3, r4, r5, ra⟩ := ih h
          refine ⟨?_, ?_, ?_, ?_, ?_, ?_⟩
          · intro e he
            rcases List.mem_cons.mp he with rfl | he
            · simp only [Value.wfTokens, List.all_eq_true]
              exact fun v hv => ht1 v hv
            · exact r1 e he
          · rw [List.map_cons]
            refine List.nodup_cons.mpr ⟨?_, r2⟩
            intro hmem
            have hnone := r3 u hmem
            simp [List.lookup_cons] at hnone
          · intro w hw
            rcases List.mem_cons.mp hw with rfl | hw
            · exact hgl
            · exact lookup_cons_ne_none (r3 w hw)
          · have hcons : tableTokens ((u, Value.arr vs) :: rest) =
                vs.filterMap Value.as_str ++ tableTokens rest := by
              simp [tableTokens, entryTokens]
            rw [hcons, List.nodup_append]
            refine ⟨ht2, r4, ?_⟩
            intro t htl htr
            have hnone := r5 t htr
            rw [lookup_eq_none_keys] at hnone
            refine hnone ?_
            simp only [List.map_append, List.mem_append, List.map_reverse, List.mem_reverse,
              List.map_map]
            left
            simpa using htl
          · intro t ht
            have hcons : tableTokens ((u, Value.arr vs) :: rest) =
                vs.filterMap Value.as_str ++ tableTokens rest := by
              simp [tableTokens, entryTokens]
            rw [hcons] at ht
            rcases List.mem_append.mp ht with ht | ht
            · exact ht3 t ht
            · exact lookup_append_none_right (r5 t ht)
          · rw [ra]
            simp [tablePairs, entryTokens, List.append_assoc]
    · rw [hgl] at h
      dsimp only at h
      cases h

theorem load_entries_ok_of {es : List (UserId × Value)} {g : Group}
    {a : BearerTokenAuthenticator}
    (hwf : ∀ e ∈ es, e.2.wfTokens)
    (hnu : (es.map Prod.fst).Nodup)
    (hgfresh : ∀ u ∈ es.map Prod.fst, a.groups.lookup u = none)
    (hnt : (tableTokens es).Nodup)
    (hufresh : ∀ t ∈ tableTokens es, a.users.lookup t = none) :
    a.load_entries g es =
      Except.ok ⟨(tablePairs es).reverse ++ a.users,
        (es.map fun e => (e.1, g)).reverse ++ a.groups⟩ := by
  induction es generalizing a with
  | nil =>
    rw [BearerTokenAuthenticator.load_entries]
    simp [tableTokens, tablePairs]
  | cons e rest ih =>
    obtain ⟨u, val⟩ := e
    rw [BearerTokenAuthenticator.load_entries]
    have hgl : a.groups.lookup u = none :=
      hgfresh u (by simp)
    rw [hgl]
    dsimp only
    have hwfv : val.wfTokens := hwf (u, val) (by simp)
    rcases val with s | vs | -
    · simp [Value.wfTokens] at hwfv
    · dsimp only [Value.as_array]
      have hstr : ∀ v ∈ vs, (Value.as_str v).isSome := by
        simpa only [Value.wfTokens, List.all_eq_true] using hwfv
      have hcons : tableTokens ((u, Value.arr vs) :: rest) =
          vs.filterMap Value.as_str ++ tableTokens rest := by
        simp [tableTokens, entryTokens]
      rw [hcons, List.nodup_append] at hnt
      have hlt :
          BearerTokenAuthenticator.load_tokens ⟨a.users, (u, g) :: a.groups⟩ u g vs =
            Except.ok ⟨((vs.filterMap Value.as_str).map fun t => (t, u)).reverse ++ a.users,
              (u, g) :: a.groups⟩ :=
        load_tokens_ok_of hstr hnt.1
          (fun t ht => hufresh t (by rw [hcons]; exact List.mem_append_left _ ht))
      rw [hlt]
      dsimp only
      have hunotin : u ∉ rest.map Prod.fst := by
        have := hnu
        rw [List.map_cons, List.nodup_cons] at this
        exact this.1
      have hgrest : ∀ w ∈ rest.map Prod.fst, List.lookup w ((u, g) :: a.groups) = none := by
        intro w hw
        rw [List.lookup_cons]
        have hne : w ≠ u := by
          rintro rfl
          exact hunotin hw
        rw [beq_false_of_ne hne]
        exact hgfresh w (List.mem_cons_of_mem _ hw)
      have hurest : ∀ t ∈ tableTokens rest,
          List.lookup t
            (((vs.filterMap Value.as_str).map fun t => (t, u)).reverse ++ a.users) = none := by
        intro t ht
        rw [lookup_eq_none_keys]
        simp only [List.map_append, List.mem_append, List.map_reverse, List.mem_reverse,
          List.map_map, not_or]
        constructor
        · intro hmem
          refine hnt.2.2 ?_ ht
          simpa using hmem
        · have hn := hufresh t (by rw [hcons]; exact List.mem_append_right _ ht)
          rw [lookup_eq_none_keys] at hn
          exact hn
      have hrest := @ih
        ⟨((vs.filterMap Value.as_str).map fun t => (t, u)).reverse ++ a.users,
          (u, g) :: a.groups⟩
        (fun e he => hwf e (List.mem_cons_of_mem _ he))
        (by
          rw [List.map_cons, List.nodup_cons] at hnu
          exact hnu.2)
        hgrest hnt.2.1 hurest
      rw [hrest]
      simp [tablePairs, entryTokens, List.append_assoc]
    · simp [Value.wfTokens] at hwfv

theorem get_table_broadcaster (c : Config) :
    c.get_table "broadcaster_auth" = c.broadcaster_auth := by
  rw [Config.get_table, if_pos rfl]

theorem get_table_reader (c : Config) :
    c.get_table "reader_auth" = c.reader_auth := by
  rw [Config.get_table, if_neg (by decide), if_pos rfl]

theorem tablePairs_keys (table : List (UserId × Value)) :
    (tablePairs table).map Prod.fst = tableTokens table := by
  simp only [tablePairs, tableTokens, List.map_flatMap, List.map_map]
  congr 1
  funext e
  have hid : (Prod.fst ∘ fun t : String => (t, e.1)) = id := by
    funext t
    rfl
  rw [hid, List.map_id]

theorem tableTokens_append (t₁ t₂ : List (UserId × Value)) :
    tableTokens (t₁ ++ t₂) = tableTokens t₁ ++ tableTokens t₂ := by
  simp [tableTokens]

theorem from_config_ok_inv {cfg : Config} {reg : BearerTokenAuthenticator}
    (h : BearerTokenAuthenticator.from_config cfg = Except.ok reg) :
    ∃ bt rt, cfg.broadcaster_auth = some bt ∧ cfg.reader_auth = some rt ∧
      (∀ e ∈ bt ++ rt, e.2.wfTokens) ∧
      ((bt ++ rt).map Prod.fst).Nodup ∧
      (tableTokens (bt ++ rt)).Nodup ∧
      reg = ⟨(tablePairs rt).reverse ++ (tablePairs bt).reverse,
             (rt.map fun e => (e.1, Group.Reader)).reverse ++
               (bt.map fun e => (e.1, Group.Broadcaster)).reverse⟩ := by
  rw [BearerTokenAuthenticator.from_config,
    BearerTokenAuthenticator.load_auth_from_config] at h
  dsimp only [Group.config_name] at h
  rw [get_table_broadcaster] at h
  rcases hbt : cfg.broadcaster_auth with - | bt
  · rw [hbt] at h
    dsimp only at h
    cases h
  · rw [hbt] at h
    dsimp only at h
    rcases hle : BearerTokenAuthenticator.load_entries ⟨[], []⟩ Group.Broadcaster bt
      with e1 | a1
    · rw [hle] at h
      cases h
    · rw [hle] at h
      dsimp only at h
      rw [BearerTokenAuthenticator.load_auth_from_config] at h
      dsimp only [Group.config_name] at h
      rw [get_table_reader] at h
      rcases hrt : cfg.reader_auth with - | rt
      · rw [hrt] at h
        dsimp only at h
        cases h
      · rw [hrt] at h
        dsimp only at h
        obtain ⟨bwf, bnu, -, bnt, -, ha1⟩ := load_entries_ok_inv hle
        subst ha1
        obtain ⟨rwf, rnu, rgfresh, rnt, rufresh, hreg⟩ := load_entries_ok_inv h
        refine ⟨bt, rt, rfl, rfl, ?_, ?_, ?_, ?_⟩
        · intro e he
          rcases List.mem_append.mp he with he | he
          · exact bwf e he
          · exact rwf e he
        · rw [List.map_append, List.nodup_append]
          refine ⟨bnu, rnu, ?_⟩
          intro w hwb hwr
          have hnone := rgfresh w hwr
          rw [lookup_eq_none_keys] at hnone
          refine hnone ?_
          simp only [List.map_append, List.map_reverse, List.map_map, List.mem_append,
            List.mem_reverse]
          left
          simpa using hwb
        · rw [tableTokens_append, List.nodup_append]
          refine ⟨bnt, rnt, ?_⟩
          intro t htb htr
          have hnone := rufresh t htr
          rw [lookup_eq_none_keys] at hnone
          refine hnone ?_
          simp only [List.map_append, List.map_reverse, List.mem_append, List.mem_reverse,
            tablePairs_keys]
          left
          exact htb
        · rw [hreg]
          simp

theorem from_config_ok_of {cfg : Config} {bt rt : List (UserId × Value)}
    (hbt : cfg.broadcaster_auth = some bt) (hrt : cfg.reader_auth = some rt)
    (hwf : ∀ e ∈ bt ++ rt, e.2.wfTokens)
    (hnu : ((bt ++ rt).map Prod.fst).Nodup)
    (hnt : (tableTokens (bt ++ rt)).Nodup) :
    BearerTokenAuthenticator.from_config cfg =
      Except.ok ⟨(tablePairs rt).reverse ++ (tablePairs bt).reverse,
        (rt.map fun e => (e.1, Group.Reader)).reverse ++
          (bt.map fun e => (e.1, Group.Broadcaster)).reverse⟩ := by
  rw [List.map_append, List.nodup_append] at hnu
  rw [tableTokens_append, List.nodup_append] at hnt
  rw [BearerTokenAuthenticator.from_config,
    BearerTokenAuthenticator.load_auth_from_config]
  dsimp only [Group.config_name]
  rw [get_table_broadcaster, hbt]
  dsimp only
  have hble := @load_entries_ok_of bt Group.Broadcaster ⟨[], []⟩
    (fun e he => hwf e (List.mem_append_left _ he)) hnu.1
    (fun w hw => List.lookup_nil) hnt.1 (fun t ht => List.lookup_nil)
  rw [hble]
  dsimp only
  rw [BearerTokenAuthenticator.load_auth_from_config]
  dsimp only [Group.config_name]
  rw [get_table_reader, hrt]
  dsimp only
  have hrle := @load_entries_ok_of rt Group.Reader
    ⟨(tablePairs bt).reverse ++ [], (bt.map fun e => (e.1, Group.Broadcaster)).reverse ++ []⟩
    (fun e he => hwf e (List.mem_append_right _ he)) hnu.2.1
    (fun w hw => ?_) hnt.2.1 (fun t ht => ?_)
  · rw [hrle]
    simp
  · rw [lookup_eq_none_keys]
    simp only [List.append_nil, List.map_reverse, List.mem_reverse, List.map_map]
    intro hmem
    refine hnu.2.2 ?_ hw
    simpa using hmem
  · rw [lookup_eq_none_keys]
    simp only [List.append_nil, List.map_reverse, List.mem_reverse, tablePairs_keys]
    intro hmem
    exact hnt.2.2 hmem ht

/-! ### Authentication-path helpers -/

theorem splitFirstSpace_append (l₁ l₂ : List Char) (h : ' ' ∉ l₁) :
    splitFirstSpace (l₁ ++ ' ' :: l₂) = some (l₁, l₂) := by
  induction l₁ with
  | nil =>
    rw [List.nil_append, splitFirstSpace, if_pos rfl]
  | cons c cs ih =>
    rw [List.cons_append, splitFirstSpace]
    have hc : ¬c = ' ' := fun hcc => h (hcc ▸ List.mem_cons_self c cs)
    rw [if_neg hc, ih (fun hm => h (List.mem_cons_of_mem c hm))]
    rfl

theorem splitn2_bearer (t : String) : splitn2 ("Bearer " ++ t) = ["Bearer", t] := by
  rw [splitn2]
  have hdata : ("Bearer " ++ t).toList = "Bearer".toList ++ ' ' :: t.toList := by
    show ("Bearer " ++ t).data = "Bearer".data ++ ' ' :: t.data
    rw [String.data_append]
    rfl
  rw [hdata, splitFirstSpace_append _ _ (by decide)]
  rfl

theorem get_one_authorization (v : String) (rest : HeaderMap) :
    HeaderMap.get_one (("Authorization", v) :: rest) "Authorization" = some v := by
  rw [HeaderMap.get_one, List.find?]
  have hb : (to_lowercase "Authorization" == to_lowercase "Authorization") = true := by decide
  rw [hb]
  rfl

theorem authenticated_user_bearer {a : BearerTokenAuthenticator} {t : String} {u : UserId}
    {g : Group} (hu : a.users.lookup t = some u) (hg : a.groups.lookup u = some g) :
    a.authenticated_user [("Authorization", "Bearer " ++ t)] = Except.ok (u, g) := by
  rw [BearerTokenAuthenticator.authenticated_user, get_one_authorization]
  dsimp only
  rw [splitn2_bearer]
  dsimp only
  rw [if_neg (by decide), hu]
  dsimp only
  rw [hg]

/-! ### Registry invariants of every successfully built registry -/

theorem tablePairs_snd_mem {table : List (UserId × Value)} {p : AuthToken × UserId}
    (h : p ∈ tablePairs table) : p.2 ∈ table.map Prod.fst := by
  simp only [tablePairs, List.mem_flatMap] at h
  obtain ⟨e, he, hp⟩ := h
  simp only [List.mem_map] at hp
  obtain ⟨t, ht, rfl⟩ := hp
  exact List.mem_map.mpr ⟨e, he, rfl⟩

theorem registry_users_nodup {cfg : Config} {reg : BearerTokenAuthenticator}
    (h : BearerTokenAuthenticator.from_config cfg = Except.ok reg) :
    (reg.users.map Prod.fst).Nodup := by
  obtain ⟨bt, rt, -, -, -, -, hnt, hreg⟩ := from_config_ok_inv h
  subst hreg
  rw [tableTokens_append] at hnt
  have hrev := nodup_rev_append hnt
  simpa [List.map_append, List.map_reverse, tablePairs_keys] using hrev

theorem registry_groups_nodup {cfg : Config} {reg : BearerTokenAuthenticator}
    (h : BearerTokenAuthenticator.from_config cfg = Except.ok reg) :
    (reg.groups.map Prod.fst).Nodup := by
  obtain ⟨bt, rt, -, -, -, hnu, -, hreg⟩ := from_config_ok_inv h
  subst hreg
  rw [List.map_append] at hnu
  have hrev := nodup_rev_append hnu
  simpa [List.map_append, List.map_reverse, List.map_map, Function.comp] using hrev

theorem registry_user_registered {cfg : Config} {reg : BearerTokenAuthenticator}
    (h : BearerTokenAuthenticator.from_config cfg = Except.ok reg) :
    ∀ p ∈ reg.users, (reg.groups.lookup p.2).isSome := by
  obtain ⟨bt, rt, -, -, -, -, -, hreg⟩ := from_config_ok_inv h
  subst hreg
  intro p hp
  simp only [List.mem_append, List.mem_reverse] at hp
  have hmem : p.2 ∈ rt.map Prod.fst ∨ p.2 ∈ bt.map Prod.fst := by
    rcases hp with hp | hp
    · exact Or.inl (tablePairs_snd_mem hp)
    · exact Or.inr (tablePairs_snd_mem hp)
  rcases hlk : List.lookup p.2
      ((rt.map fun e => (e.1, Group.Reader)).reverse ++
        (bt.map fun e => (e.1, Group.Broadcaster)).reverse) with - | w
  · exfalso
    rw [lookup_eq_none_keys] at hlk
    refine hlk ?_
    simp only [List.map_append, List.map_reverse, List.map_map, List.mem_append,
      List.mem_reverse, Function.comp]
    simpa using hmem
  · simp

/-! ### Bridges between valueStrings, wfTokens and entryTokens -/

theorem wfTokens_of_valueStrings {v : Value} (h : (valueStrings v).isSome) : v.wfTokens := by
  cases v with
  | str s => simp [valueStrings] at h
  | arr vs =>
    rw [valueStrings] at h
    rw [asStrings_isSome] at h
    simp only [Value.wfTokens, List.all_eq_true]
    exact h
  | other => simp [valueStrings] at h

theorem entryTokens_of_valueStrings {v : Value} {ts : List String}
    (h : valueStrings v = some ts) : entryTokens v = ts := by
  cases v with
  | str s => simp [valueStrings] at h
  | arr vs =>
    rw [valueStrings] at h
    rw [entryTokens]
    exact filterMap_eq_of_asStrings h
  | other => simp [valueStrings] at h

theorem tablePairs_append (t₁ t₂ : List (UserId × Value)) :
    tablePairs (t₁ ++ t₂) = tablePairs t₁ ++ tablePairs t₂ := by
  simp [tablePairs]

theorem key_functional {α β : Type} {T : List (α × β)} (hnd : (T.map Prod.fst).Nodup)
    {e₁ e₂ : α × β} (h₁ : e₁ ∈ T) (h₂ : e₂ ∈ T) (hk : e₁.1 = e₂.1) : e₁ = e₂ := by
  induction T with
  | nil => cases h₁
  | cons c cs ih =>
    rw [List.map_cons, List.nodup_cons] at hnd
    rcases List.mem_cons.mp h₁ with h₁c | h₁t
    · rcases List.mem_cons.mp h₂ with h₂c | h₂t
      · rw [h₁c, h₂c]
      · exfalso
        apply hnd.1
        subst h₁c
        exact List.mem_map.mpr ⟨e₂, h₂t, hk.symm⟩
    · rcases List.mem_cons.mp h₂ with h₂c | h₂t
      · exfalso
        apply hnd.1
        subst h₂c
        exact List.mem_map.mpr ⟨e₁, h₁t, hk⟩
      · exact ih hnd.2 h₁t h₂t

/-- If no entry of the token map resolves to `u`, no header map authenticates
as `u`. -/
theorem no_auth_as_unmapped {reg : BearerTokenAuthenticator} {u : UserId}
    (hp2 : ∀ p ∈ reg.users, p.2 ≠ u) :
    ∀ hdrs g, reg.authenticated_user hdrs ≠ Except.ok (u, g) := by
  intro hdrs g
  rw [BearerTokenAuthenticator.authenticated_user]
  rcases hg : HeaderMap.get_one hdrs "Authorization" with - | v
  · simp
  · dsimp only
    rcases hsp : splitn2 v with - | ⟨p, - | ⟨q, - | ⟨r, tail⟩⟩⟩
    · simp
    · simp
    · dsimp only
      by_cases hlow : to_lowercase p = "bearer"
      · rw [if_neg (not_not_intro hlow)]
        rcases hlk : reg.users.lookup q with - | uid
        · simp
        · rcases hgr : reg.groups.lookup uid with - | grp
          · simp [hgr]
          · intro hcon
            dsimp only at hcon
            rw [hgr] at hcon
            dsimp only at hcon
            injection hcon with hpair
            exact hp2 (q, uid) (mem_of_lookup_eq_some hlk) (congrArg Prod.fst hpair)
      · rw [if_pos hlow]
        simp
    · simp

/-! ### C1 -/

/-- C1: for every configuration in which both tables `broadcaster_auth` and
`reader_auth` are present, every value is an array of strings, and all UserIds
and all tokens are pairwise distinct across both roles,
`BearerTokenAuthenticator::from_config` succeeds, and for every configured
token `t` of user `u` with role `g`, `authenticated_user` on headers containing
`Authorization: Bearer t` returns exactly `(u, g)`. -/
theorem C1_build_and_authenticate (cfg : Config) (bt rt : List (UserId × Value))
    (hb : cfg.broadcaster_auth = some bt) (hr : cfg.reader_auth = some rt)
    (hwf : ∀ e ∈ bt ++ rt, (valueStrings e.2).isSome)
    (hnu : ((bt ++ rt).map Prod.fst).Nodup)
    (hnt : (tableTokens (bt ++ rt)).Nodup) :
    ∃ reg, BearerTokenAuthenticator.from_config cfg = Except.ok reg ∧
      (∀ u v ts t, (u, v) ∈ bt → valueStrings v = some ts → t ∈ ts →
        reg.authenticated_user [("Authorization", "Bearer " ++ t)] =
          Except.ok (u, Group.Broadcaster)) ∧
      (∀ u v ts t, (u, v) ∈ rt → valueStrings v = some ts → t ∈ ts →
        reg.authenticated_user [("Authorization", "Bearer " ++ t)] =
          Except.ok (u, Group.Reader)) := by
  have hok := from_config_ok_of hb hr (fun e he => wfTokens_of_valueStrings (hwf e he)) hnu hnt
  refine ⟨_, hok, ?_, ?_⟩
  · intro u v ts t hmem hvs ht
    refine authenticated_user_bearer ?_ ?_
    · refine lookup_eq_some_of_mem_nodup (registry_users_nodup hok) ?_
      simp only [List.mem_append, List.mem_reverse]
      right
      simp only [tablePairs, List.mem_flatMap]
      refine ⟨(u, v), hmem, ?_⟩
      simp only [List.mem_map]
      exact ⟨t, by rw [entryTokens_of_valueStrings hvs]; exact ht, rfl⟩
    · refine lookup_eq_some_of_mem_nodup (registry_groups_nodup hok) ?_
      simp only [List.mem_append, List.mem_reverse]
      right
      exact List.mem_map.mpr ⟨(u, v), hmem, rfl⟩
  · intro u v ts t hmem hvs ht
    refine authenticated_user_bearer ?_ ?_
    · refine lookup_eq_some_of_mem_nodup (registry_users_nodup hok) ?_
      simp only [List.mem_append, List.mem_reverse]
      left
      simp only [tablePairs, List.mem_flatMap]
      refine ⟨(u, v), hmem, ?_⟩
      simp only [List.mem_map]
      exact ⟨t, by rw [entryTokens_of_valueStrings hvs]; exact ht, rfl⟩
    · refine lookup_eq_some_of_mem_nodup (registry_groups_nodup hok) ?_
      simp only [List.mem_append, List.mem_reverse]
      left
      exact List.mem_map.mpr ⟨(u, v), hmem, rfl⟩

/-! ### C1 witness, C2, C3 -/

/-- Witness for C1 at the concrete spec §8 configuration. -/
theorem C1_build_and_authenticate_witness :
    ∃ reg, BearerTokenAuthenticator.from_config cfgEx = Except.ok reg ∧
      (∀ u v ts t,
          (u, v) ∈ [("foo", Value.arr [Value.str "bar"]),
                    ("baz", Value.arr [Value.str "quux"])] →
          valueStrings v = some ts → t ∈ ts →
          reg.authenticated_user [("Authorization", "Bearer " ++ t)] =
            Except.ok (u, Group.Broadcaster)) ∧
      (∀ u v ts t, (u, v) ∈ [("otto", Value.arr [Value.str "push"])] →
          valueStrings v = some ts → t ∈ ts →
          reg.authenticated_user [("Authorization", "Bearer " ++ t)] =
            Except.ok (u, Group.Reader)) :=
  C1_build_and_authenticate cfgEx _ _ rfl rfl (by decide) (by decide) (by decide)

/-- C2: for every request whose authentication yields identity `(u, g)` and
whose first path parameter is present as string `n`, `authorized_broadcaster`
succeeds if and only if `g` is Broadcaster and `u` equals `n` by exact string
equality; on success it returns a Broadcaster principal wrapping `u`, otherwise
it fails with Unauthorized. -/
theorem C2_authorized_broadcaster_iff (req : Request) (u : UserId) (g : Group) (n : String)
    (hauth : authenticated_user req = Except.ok (u, g)) (hp : req.param0 = some n) :
    authorized_broadcaster req =
      if g = Group.Broadcaster ∧ u = n then Except.ok (Broadcaster.new u)
      else Except.error HandlerErrorKind.Unauthorized := by
  rw [authorized_broadcaster, hauth]
  dsimp only
  rw [hp]

/-- Witness for C2: broadcaster `baz` with requested namespace `baz` is
authorized. -/
theorem C2_authorized_broadcaster_iff_witness :
    authorized_broadcaster reqEx = Except.ok (Broadcaster.new "baz") := by
  have h := C2_authorized_broadcaster_iff reqEx "baz" Group.Broadcaster "baz" (by decide) rfl
  rw [if_pos ⟨rfl, rfl⟩] at h
  exact h

/-- C3: for every request whose authentication yields identity `(u, g)`,
`authorized_reader` succeeds if and only if `g` is Reader, regardless of any
requested namespace, returning a Reader principal wrapping `u`; otherwise it
fails with Unauthorized. -/
theorem C3_authorized_reader_iff (req : Request) (u : UserId) (g : Group)
    (hauth : authenticated_user req = Except.ok (u, g)) :
    authorized_reader req =
      if g = Group.Reader then Except.ok (Reader.new u)
      else Except.error HandlerErrorKind.Unauthorized := by
  rw [authorized_reader, hauth]

/-- Witness for C3: reader `otto` is authorized (whatever the namespace
parameter holds). -/
theorem C3_authorized_reader_iff_witness :
    authorized_reader reqReader = Except.ok (Reader.new "otto") := by
  have h := C3_authorized_reader_iff reqReader "otto" Group.Reader (by decide)
  rw [if_pos rfl] at h
  exact h

/-! ### C4 -/

/-- C4: for every registry and every header map, `authenticated_user` fails
with MissingAuth exactly when no Authorization header is present; when the
header is present it fails with InvalidAuth exactly when splitting the value
on the first space does not yield two parts, or the first part is not
case-insensitively equal to Bearer, or the second part (compared byte-exact)
is not a key of the token map. -/
theorem C4_authentication_errors (reg : BearerTokenAuthenticator) (hdrs : HeaderMap) :
    (reg.authenticated_user hdrs = Except.error HandlerErrorKind.MissingAuth ↔
      HeaderMap.get_one hdrs "Authorization" = none) ∧
    (∀ v, HeaderMap.get_one hdrs "Authorization" = some v →
      (reg.authenticated_user hdrs = Except.error HandlerErrorKind.InvalidAuth ↔
        (splitn2 v).length ≠ 2 ∨
        to_lowercase ((splitn2 v).headD "") ≠ "bearer" ∨
        reg.users.lookup ((splitn2 v).getD 1 "") = none)) := by
  rw [BearerTokenAuthenticator.authenticated_user]
  rcases hg : HeaderMap.get_one hdrs "Authorization" with - | v
  · refine ⟨by simp, ?_⟩
    intro w hw
    cases hw
  · dsimp only
    rcases hsp : splitn2 v with - | ⟨p, - | ⟨q, - | ⟨r, tail⟩⟩⟩
    · dsimp only
      refine ⟨by simp, ?_⟩
      intro w hw
      cases hw
      rw [hsp]
      simp
    · dsimp only
      refine ⟨by simp, ?_⟩
      intro w hw
      cases hw
      rw [hsp]
      simp
    · dsimp only
      by_cases hlow : to_lowercase p = "bearer"
      · rw [if_neg (not_not_intro hlow)]
        rcases hlk : reg.users.lookup q with - | uid
        · refine ⟨by simp, ?_⟩
          intro w hw
          cases hw
          rw [hsp]
          simp [hlk]
        · rcases hgr : reg.groups.lookup uid with - | grp
          · refine ⟨by simp [hgr], ?_⟩
            intro w hw
            cases hw
            rw [hsp]
            simp [hlow, hlk, hgr]
          · refine ⟨by simp [hgr], ?_⟩
            intro w hw
            cases hw
            rw [hsp]
            simp [hlow, hlk, hgr]
      · rw [if_pos hlow]
        refine ⟨by simp, ?_⟩
        intro w hw
        cases hw
        rw [hsp]
        simp [hlow]
    · dsimp only
      refine ⟨by simp, ?_⟩
      intro w hw
      cases hw
      rw [hsp]
      simp

/-- Witness for C4: a `Basic` scheme is rejected with InvalidAuth, matching the
disjunction of the theorem. -/
theorem C4_authentication_errors_witness :
    regEx.authenticated_user [("Authorization", "Basic xyz")] =
      Except.error HandlerErrorKind.InvalidAuth := by
  have h := (C4_authentication_errors regEx [("Authorization", "Basic xyz")]).2
    "Basic xyz" (by rfl)
  exact h.mpr (by decide)

/-! ### C5 -/

/-- C5: for every configuration in which the same token string appears in the
token arrays of two different UserIds — in the same role table or in different
role tables — `from_config` fails with a ConfigError and no registry is
produced. -/
theorem C5_duplicate_token_fails (cfg : Config) (u₁ u₂ : UserId) (v₁ v₂ : Value)
    (t : AuthToken)
    (h₁ : (u₁, v₁) ∈ configEntries cfg) (h₂ : (u₂, v₂) ∈ configEntries cfg)
    (hne : u₁ ≠ u₂) (ht₁ : t ∈ entryTokens v₁) (ht₂ : t ∈ entryTokens v₂) :
    ∃ msg, BearerTokenAuthenticator.from_config cfg = Except.error msg := by
  rcases hfc : BearerTokenAuthenticator.from_config cfg with msg | reg
  · exact ⟨msg, rfl⟩
  · exfalso
    obtain ⟨bt, rt, hb, hr, -, -, hnt, -⟩ := from_config_ok_inv hfc
    have hce : configEntries cfg = bt ++ rt := by
      rw [configEntries, get_table_broadcaster, get_table_reader, hb, hr]
      rfl
    rw [hce] at h₁ h₂
    exact nodup_flatMap_pairwise hnt h₁ h₂
      (fun he => hne (congrArg Prod.fst he)) ht₁ ht₂

/-- Witness for C5 at the source's `test_dupe_token` configuration: token `bar`
under both `foo` and `baz`. -/
theorem C5_duplicate_token_fails_witness :
    ∃ msg, BearerTokenAuthenticator.from_config cfgDupeToken = Except.error msg := by
  have hlist : configEntries cfgDupeToken =
      [("foo", Value.arr [Value.str "bar"]), ("baz", Value.arr [Value.str "bar"])] := rfl
  refine C5_duplicate_token_fails cfgDupeToken "foo" "baz"
    (Value.arr [Value.str "bar"]) (Value.arr [Value.str "bar"]) "bar"
    ?_ ?_ (by decide) (by decide) (by decide)
  · rw [hlist]
    exact List.mem_cons_self _ _
  · rw [hlist]
    exact List.mem_cons_of_mem _ (List.mem_cons_self _ _)

/-! ### C6, C7, C8 -/

/-- C6: for every configuration in which the same UserId appears as a key in
both the broadcaster_auth table and the reader_auth table, `from_config` fails
with a ConfigError and no registry is produced. -/
theorem C6_duplicate_user_fails (cfg : Config) (bt rt : List (UserId × Value)) (u : UserId)
    (hb : cfg.broadcaster_auth = some bt) (hr : cfg.reader_auth = some rt)
    (hub : u ∈ bt.map Prod.fst) (hur : u ∈ rt.map Prod.fst) :
    ∃ msg, BearerTokenAuthenticator.from_config cfg = Except.error msg := by
  rcases hfc : BearerTokenAuthenticator.from_config cfg with msg | reg
  · exact ⟨msg, rfl⟩
  · exfalso
    obtain ⟨bt2, rt2, hb2, hr2, -, hnu, -, -⟩ := from_config_ok_inv hfc
    rw [hb] at hb2
    rw [hr] at hr2
    cases hb2
    cases hr2
    rw [List.map_append, List.nodup_append] at hnu
    exact hnu.2.2 hub hur

/-- Witness for C6 at the source's `test_dupe_user` configuration: `foo` in
both tables. -/
theorem C6_duplicate_user_fails_witness :
    ∃ msg, BearerTokenAuthenticator.from_config cfgDupeUser = Except.error msg :=
  C6_duplicate_user_fails cfgDupeUser [("foo", Value.arr [Value.str "bar"])]
    [("foo", Value.arr [Value.str "baz"])] "foo" rfl rfl (by decide) (by decide)

/-- C7: every registry returned by a successful `from_config` satisfies the
three registry invariants: no token maps to more than one UserId even across
roles (the token map has pairwise-distinct keys), no UserId maps to more than
one role (the group map has pairwise-distinct keys), and every UserId appearing
as a value in the token map is present as a key in the group map. -/
theorem C7_registry_invariants (cfg : Config) (reg : BearerTokenAuthenticator)
    (h : BearerTokenAuthenticator.from_config cfg = Except.ok reg) :
    (reg.users.map Prod.fst).Nodup ∧ (reg.groups.map Prod.fst).Nodup ∧
      ∀ p ∈ reg.users, (reg.groups.lookup p.2).isSome :=
  ⟨registry_users_nodup h, registry_groups_nodup h, registry_user_registered h⟩

/-- Witness for C7 at the spec §8 configuration. -/
theorem C7_registry_invariants_witness :
    (regEx.users.map Prod.fst).Nodup ∧ (regEx.groups.map Prod.fst).Nodup ∧
      ∀ p ∈ regEx.users, (regEx.groups.lookup p.2).isSome :=
  C7_registry_invariants cfgEx regEx (by decide)

/-- C8: for every registry produced by a successful `from_config` and every
header map, `authenticated_user` never returns InternalError: the group lookup
failure branch is unreachable because every resolved UserId is present in the
group map. -/
theorem C8_no_internal_error (cfg : Config) (reg : BearerTokenAuthenticator)
    (hdrs : HeaderMap)
    (h : BearerTokenAuthenticator.from_config cfg = Except.ok reg) :
    reg.authenticated_user hdrs ≠ Except.error HandlerErrorKind.InternalError := by
  rw [BearerTokenAuthenticator.authenticated_user]
  rcases hg : HeaderMap.get_one hdrs "Authorization" with - | v
  · simp
  · dsimp only
    rcases hsp : splitn2 v with - | ⟨p, - | ⟨q, - | ⟨r, tail⟩⟩⟩
    · simp
    · simp
    · dsimp only
      by_cases hlow : to_lowercase p = "bearer"
      · rw [if_neg (not_not_intro hlow)]
        rcases hlk : reg.users.lookup q with - | uid
        · simp
        · have hreg : (reg.groups.lookup uid).isSome :=
            registry_user_registered h (q, uid) (mem_of_lookup_eq_some hlk)
          rcases hgr : reg.groups.lookup uid with - | grp
          · rw [hgr] at hreg
            simp at hreg
          · simp [hgr]
      · rw [if_pos hlow]
        simp
    · simp

/-- Witness for C8 at the spec §8 configuration with a valid Bearer header. -/
theorem C8_no_internal_error_witness :
    regEx.authenticated_user [("Authorization", "Bearer quux")] ≠
      Except.error HandlerErrorKind.InternalError :=
  C8_no_internal_error cfgEx regEx [("Authorization", "Bearer quux")] (by decide)

/-! ### C9 (corrected) -/

/-- C9 counterexample: on a request whose authentication succeeds but whose
first path parameter cannot be obtained, `authorized_broadcaster` fails with
RocketError, which is none of MissingAuth, InvalidAuth, Unauthorized,
InternalError. -/
theorem C9_counterexample :
    ∃ e, authorized_broadcaster reqNoParam = Except.error e ∧
      e ≠ HandlerErrorKind.MissingAuth ∧ e ≠ HandlerErrorKind.InvalidAuth ∧
      e ≠ HandlerErrorKind.Unauthorized ∧ e ≠ HandlerErrorKind.InternalError :=
  ⟨HandlerErrorKind.RocketError, by decide, by decide, by decide, by decide, by decide⟩

/-- C9 (amended): when `authorized_broadcaster` fails, the error is one of
MissingAuth, InvalidAuth, Unauthorized, InternalError, or RocketError; in
particular, when authentication succeeded but the requested-namespace path
parameter cannot be obtained from the request, the error is RocketError. -/
theorem C9_error_kinds (req : Request) (e : HandlerErrorKind)
    (h : authorized_broadcaster req = Except.error e) :
    (e = HandlerErrorKind.MissingAuth ∨ e = HandlerErrorKind.InvalidAuth ∨
      e = HandlerErrorKind.Unauthorized ∨ e = HandlerErrorKind.InternalError ∨
      e = HandlerErrorKind.RocketError) ∧
    (∀ u g, authenticated_user req = Except.ok (u, g) → req.param0 = none →
      e = HandlerErrorKind.RocketError) := by
  constructor
  · cases e <;> simp
  · intro u g hauth hp
    rw [authorized_broadcaster, hauth] at h
    dsimp only at h
    rw [hp] at h
    dsimp only at h
    cases h
    rfl

/-- Witness for the amended C9 on the request without a usable path
parameter. -/
theorem C9_error_kinds_witness :
    HandlerErrorKind.RocketError = HandlerErrorKind.MissingAuth ∨
    HandlerErrorKind.RocketError = HandlerErrorKind.InvalidAuth ∨
    HandlerErrorKind.RocketError = HandlerErrorKind.Unauthorized ∨
    HandlerErrorKind.RocketError = HandlerErrorKind.InternalError ∨
    HandlerErrorKind.RocketError = HandlerErrorKind.RocketError :=
  (C9_error_kinds reqNoParam HandlerErrorKind.RocketError (by decide)).1

/-! ### C10 -/

/-- C10: for every configuration in which some UserId maps to an empty token
array and the build succeeds, that UserId is registered in the group map, yet
no token maps to it in the token map, so no request can ever authenticate as
that UserId. -/
theorem C10_empty_token_array (cfg : Config) (reg : BearerTokenAuthenticator) (u : UserId)
    (h : BearerTokenAuthenticator.from_config cfg = Except.ok reg)
    (hmem : (u, Value.arr []) ∈ configEntries cfg) :
    (reg.groups.lookup u).isSome ∧ (∀ p ∈ reg.users, p.2 ≠ u) ∧
      ∀ hdrs g, reg.authenticated_user hdrs ≠ Except.ok (u, g) := by
  obtain ⟨bt, rt, hb, hr, -, hnu, -, hreg⟩ := from_config_ok_inv h
  have hce : configEntries cfg = bt ++ rt := by
    rw [configEntries, get_table_broadcaster, get_table_reader, hb, hr]
    rfl
  rw [hce] at hmem
  have hukey : u ∈ (bt ++ rt).map Prod.fst :=
    List.mem_map.mpr ⟨(u, Value.arr []), hmem, rfl⟩
  subst hreg
  have hp2 : ∀ p ∈ ((tablePairs rt).reverse ++ (tablePairs bt).reverse), p.2 ≠ u := by
    intro p hp hpu
    have hp' : p ∈ tablePairs (bt ++ rt) := by
      rw [tablePairs_append, List.mem_append]
      simp only [List.mem_append, List.mem_reverse] at hp
      exact hp.symm
    obtain ⟨e, he, hpe⟩ := List.mem_flatMap.mp hp'
    obtain ⟨t, ht, rfl⟩ := List.mem_map.mp hpe
    have hee : e = (u, Value.arr []) := key_functional hnu he hmem hpu
    rw [hee] at ht
    simp [entryTokens] at ht
  refine ⟨?_, hp2, no_auth_as_unmapped hp2⟩
  rcases hgl : List.lookup u
      ((rt.map fun e => (e.1, Group.Reader)).reverse ++
        (bt.map fun e => (e.1, Group.Broadcaster)).reverse) with - | w
  · exfalso
    rw [lookup_eq_none_keys] at hgl
    refine hgl ?_
    simp only [List.map_append, List.map_reverse, List.map_map, List.mem_append,
      List.mem_reverse, Function.comp]
    rw [List.map_append] at hukey
    rcases List.mem_append.mp hukey with hu | hu
    · right
      simpa using hu
    · left
      simpa using hu
  · simp

/-- Witness for C10: user `nobody` with an empty token array is registered as a
broadcaster but can never be authenticated. -/
theorem C10_empty_token_array_witness :
    (regEmpty.groups.lookup "nobody").isSome ∧ (∀ p ∈ regEmpty.users, p.2 ≠ "nobody") ∧
      ∀ hdrs g, regEmpty.authenticated_user hdrs ≠ Except.ok ("nobody", g) :=
  C10_empty_token_array cfgEmpty regEmpty "nobody" (by decide)
    (by
      rw [show configEntries cfgEmpty =
        [("baz", Value.arr [Value.str "quux"]), ("nobody", Value.arr []),
         ("otto", Value.arr [Value.str "push"])] from rfl]
      exact List.mem_cons_of_mem _ (List.mem_cons_self _ _))

end Megaphone
